import Mathlib

/-!
Shallow embedding of the discrete-event simulation core of
`src/university_registration_queue.py` (lines 120-155), a two-stage
university-registration queue simulated with SimPy.

The Python core consists of

* `registration_simulation(env, counters, results)` (lines 123-149): builds a
  `doc_check` resource of capacity 5 and a `registration` resource of capacity
  `counters`, starts an arrival `generator`, runs the SimPy environment until
  `SIM_TIME`, and appends `(counters, statistics.mean(wait_times))` to
  `results`;
* the `student` process (lines 128-137): acquire `doc_check`, delay by
  `random.expovariate(1 / avg_doc_check)`, release; remember `start_wait`,
  acquire `registration`, append `env.now - start_wait` to `wait_times`,
  delay by `random.expovariate(1 / avg_service)`, release;
* the `generator` process (lines 139-142): forever delay by
  `random.expovariate(1 / SIM_INTER_ARRIVAL)` then spawn a `student`;
* the sweep (lines 151-155): `random.seed(42)` once, then
  `registration_simulation(simpy.Environment(), c, simulation_results)` for
  `c` in `[3, 10, 12]`, all three runs consuming the single module-level
  random stream.

The embedding reproduces SimPy's event mechanics for exactly the features this
program uses:

* the event queue is ordered by the key `(time, priority, event id)`; event
  ids increase in creation order; process-creation events are URGENT
  (priority 0), everything else NORMAL (priority 1);
* `Resource.request()` appends the request to the FIFO put-queue and
  immediately tries to grant the queue head if `len(users) < capacity`; a
  grant schedules the resumption of the granted process at the current time
  (the granting pass stops after one grant, which is SimPy's
  `_trigger_put` / `_do_put` behaviour for `Resource`);
* `Resource.release()` removes the holder from `users` synchronously and
  schedules a Release event at the current time whose processing re-runs the
  granting pass (`_trigger_put`);
* `env.timeout(d)` with `d < 0` raises ValueError (modelled `negativeDelay`);
* `env.run(until)` with `until <= now` raises ValueError (modelled
  `untilInPast`); otherwise it executes events in key order while their due
  time is strictly below the horizon (the stop event has key
  `(horizon, URGENT, 1)`, which precedes every event the program can place at
  the horizon itself);
* `simpy.Resource(env, capacity)` with `capacity <= 0` raises ValueError at
  construction (modelled `invalidCapacity`);
* `random.expovariate(1 / mean)` with `mean = 0` raises ZeroDivisionError
  before drawing (modelled `zeroDivision`);
* `statistics.mean([])` raises StatisticsError (modelled `emptyMean`).

Randomness: the module-level seeded generator is modelled by a `List ℚ` of
unit-exponential draws, consumed one element per `random.expovariate` call, in
call order; `expovariate(lambd)` returns `draw / lambd`.  Identical seed means
identical stream.  Arithmetic is exact (ℚ) instead of IEEE float; the claims
settled here do not depend on rounding.

Two events that SimPy creates but that have no callbacks and run no user code
are omitted (an order-preserving thinning of the event queue): the event a
`Process` schedules for itself on termination (nothing waits on `student`
processes), and the no-op `_trigger_get` callback of a granted request (the
get-queue is always empty when it fires, because a Release succeeds
synchronously at creation).  Event ids start at 2 so that modelled ids match
the Python ones (id 0 is the generator's process-creation event, id 1 the stop
event of `env.run`).

Ghost fields (`enqLog`, `grantLog`, `everQueued`, `nSteps`, `regReqLog`,
`regGrantLog`) record the trace the specification's claims quantify over; they
never influence the dynamics.
-/

set_option maxRecDepth 4000

namespace RegSim

/-- Errors a run of the Python core can raise (each constructor names the
Python exception it stands for), plus two artifacts of the finite model:
`streamExhausted` (the modelled random stream ran out) and `badState`
(an event resumed a process the program can never resume). -/
inductive SimErr where
  | invalidCapacity
  | zeroDivision
  | negativeDelay
  | untilInPast
  | emptyMean
  | streamExhausted
  | badState
deriving Repr, DecidableEq

/-- A finite-capacity FIFO resource, mirroring `simpy.Resource`:
`users` is `len(resource.users)`, `queue` the pids of the pending requests in
`put_queue` order.  `enqLog`, `grantLog` and `everQueued` are ghost trace
fields: every request appends its pid to `enqLog`, every grant appends the
granted pid to `grantLog`, and `everQueued` is set once a request is not
granted in the same instant it is made. -/
structure Pool where
  users : ℕ
  queue : List ℕ
  enqLog : List ℕ
  grantLog : List ℕ
  everQueued : Bool
deriving Repr, DecidableEq

/-- A fresh pool.  The capacity is not part of the mutable state: SimPy fixes
it at construction (line 124: 5 for `doc_check`; line 125: `counters` for
`registration`) and only ever reads it, so the embedding passes it as a
parameter to the operations instead. -/
def Pool.init : Pool :=
  { users := 0, queue := [], enqLog := [], grantLog := [], everQueued := false }

/-- Where a process is suspended, i.e. at which `yield` of the Python
generators `generator` (lines 139-142) and `student` (lines 128-137) it will
resume.  `stuWaitReg` stores the Python local `start_wait` (line 133). -/
inductive PState where
  | genStart
  | genWait
  | stuStart
  | stuWaitDoc
  | stuDocService
  | stuWaitReg (start_wait : ℚ)
  | stuRegService
  | done
deriving Repr, DecidableEq

/-- What processing an event does: resume a suspended process (process
creation, timeout expiry, or request grant all resume the owning process), or
run the granting pass of a Release event on one of the two resources. -/
inductive EAction where
  | resume (pid : ℕ)
  | trigDoc
  | trigReg
deriving Repr, DecidableEq

/-- A scheduled event: due time, priority (0 = URGENT for process creation,
1 = NORMAL for everything else), creation id, and its action. -/
structure Ev where
  time : ℚ
  prio : ℕ
  eid : ℕ
  act : EAction
deriving Repr, DecidableEq

/-- SimPy's heap key: lexicographic on (time, priority, event id). -/
def Ev.key (e : Ev) : ℚ ×ₗ ℕ ×ₗ ℕ := toLex (e.time, toLex (e.prio, e.eid))

/-- Insert an event into the key-sorted pending list (the new event has the
largest id, so placing it after every event with a key not above it matches
the heap order). -/
def insertEv (e : Ev) : List Ev → List Ev
  | [] => [e]
  | x :: xs => if e.key < x.key then e :: x :: xs else x :: insertEv e xs

/-- The full state of one simulation run: the clock `now`, the id and pid
allocators, the key-sorted pending events, the suspension state of every
process (pid 0 is the generator), the two resources, the collector list
`wait_times`, and the not-yet-consumed random stream.  `nSteps` counts the
events executed; `regReqLog` records `(pid, env.now)` at every registration
request, `regGrantLog` records `(pid, start_wait, env.now)` at every
registration grant — all three are ghost trace fields. -/
structure SimState where
  now : ℚ
  nextEid : ℕ
  nextPid : ℕ
  events : List Ev
  procs : List (ℕ × PState)
  doc_check : Pool
  registration : Pool
  wait_times : List ℚ
  stream : List ℚ
  nSteps : ℕ
  regReqLog : List (ℕ × ℚ)
  regGrantLog : List (ℕ × ℚ × ℚ)
deriving Repr, DecidableEq

/-- Parameters the Python core reads when sampling: the constant
`SIM_INTER_ARRIVAL` and the dataset-derived `avg_doc_check` and
`avg_service`. -/
structure Params where
  interArrival : ℚ
  avg_doc_check : ℚ
  avg_service : ℚ
deriving Repr, DecidableEq

/-- Look up the suspension state of a process. -/
def lookupProc : List (ℕ × PState) → ℕ → Option PState
  | [], _ => none
  | (q, s) :: rest, pid => if q = pid then some s else lookupProc rest pid

/-- Replace the suspension state of a process. -/
def updateProc : List (ℕ × PState) → ℕ → PState → List (ℕ × PState)
  | [], _, _ => []
  | (q, s) :: rest, pid, s' =>
    if q = pid then (q, s') :: rest else (q, s) :: updateProc rest pid s'

/-- Schedule a new event at absolute time `t`. -/
def schedule (st : SimState) (t : ℚ) (prio : ℕ) (act : EAction) : SimState :=
  { st with events := insertEv ⟨t, prio, st.nextEid, act⟩ st.events,
            nextEid := st.nextEid + 1 }

/-- Consume one element of the random stream (one `random.random()` call
inside `expovariate`). -/
def drawStream (st : SimState) : Except SimErr (ℚ × SimState) :=
  match st.stream with
  | [] => .error .streamExhausted
  | u :: rest => .ok (u, { st with stream := rest })

/-- Python division: raises ZeroDivisionError on a zero divisor. -/
def pyDiv (a b : ℚ) : Except SimErr ℚ :=
  if b = 0 then .error .zeroDivision else .ok (a / b)

/-- The call `random.expovariate(1 / mean)`: the argument `1 / mean` is
evaluated first (ZeroDivisionError if `mean = 0`), then one draw `u` is
consumed and `u / lambd` returned. -/
def sampleExpo (mean : ℚ) (st : SimState) : Except SimErr (ℚ × SimState) :=
  match pyDiv 1 mean with
  | .error e => .error e
  | .ok lambd =>
    match drawStream st with
    | .error e => .error e
    | .ok (u, st1) =>
      match pyDiv u lambd with
      | .error e => .error e
      | .ok d => .ok (d, st1)

/-- The call `env.timeout(d)` followed by `yield`: negative delays raise
ValueError, otherwise an event at `now + d` (NORMAL priority) resumes `act`'s
owner. -/
def mkTimeout (d : ℚ) (act : EAction) (st : SimState) : Except SimErr SimState :=
  if d < 0 then .error .negativeDelay
  else .ok (schedule st (st.now + d) 1 act)

/-- SimPy's `_trigger_put` for `Resource`: try the head of the put-queue; if
a unit is free, grant it (the pass stops after one grant either way).
Returns the updated pool and the granted pid, if any. -/
def triggerPut (cap : ℕ) (p : Pool) : Pool × Option ℕ :=
  match p.queue with
  | [] => (p, none)
  | q0 :: rest =>
    if p.users < cap then
      ({ p with users := p.users + 1, queue := rest,
                grantLog := p.grantLog ++ [q0] }, some q0)
    else (p, none)

/-- `resource.request()`: append the caller to the put-queue, then run the
granting pass once.  The ghost flag `everQueued` is raised when someone is
still waiting after the pass. -/
def requestPool (cap : ℕ) (p : Pool) (pid : ℕ) : Pool × Option ℕ :=
  let p1 := { p with queue := p.queue ++ [pid], enqLog := p.enqLog ++ [pid] }
  let p2 := triggerPut cap p1
  ({ p2.1 with everQueued := p2.1.everQueued || !p2.1.queue.isEmpty }, p2.2)

/-- Schedule the resumption of a just-granted process at the current time. -/
def scheduleGrant (st : SimState) (g : Option ℕ) : SimState :=
  match g with
  | none => st
  | some pid => schedule st st.now 1 (.resume pid)

/-- Resume process `pid`: run its Python generator body from its current
suspension point to the next `yield` (or to its end), with exactly the side
effects and in exactly the order the source lines perform them. -/
def resumeProc (P : Params) (counters : ℕ) (pid : ℕ) (st : SimState) :
    Except SimErr SimState :=
  match lookupProc st.procs pid with
  | none => .error .badState
  | some ps =>
    match ps with
    | .genStart =>
        -- line 141 (first iteration): draw the first inter-arrival delay
        match sampleExpo P.interArrival st with
        | .error e => .error e
        | .ok (d, st1) =>
          match mkTimeout d (.resume pid) st1 with
          | .error e => .error e
          | .ok st2 => .ok { st2 with procs := updateProc st2.procs pid .genWait }
    | .genWait =>
        -- line 142: spawn a student (URGENT process-creation event), then
        -- line 141: draw the next inter-arrival delay
        let spid := st.nextPid
        let st1 := { st with nextPid := spid + 1,
                             procs := st.procs ++ [(spid, .stuStart)] }
        let st2 := schedule st1 st1.now 0 (.resume spid)
        match sampleExpo P.interArrival st2 with
        | .error e => .error e
        | .ok (d, st3) => mkTimeout d (.resume pid) st3
    | .stuStart =>
        -- line 129: request doc_check, suspend at `yield req`
        let pg := requestPool 5 st.doc_check pid
        let st1 := scheduleGrant { st with doc_check := pg.1 } pg.2
        .ok { st1 with procs := updateProc st1.procs pid .stuWaitDoc }
    | .stuWaitDoc =>
        -- line 131: doc-check service delay
        match sampleExpo P.avg_doc_check st with
        | .error e => .error e
        | .ok (d, st1) =>
          match mkTimeout d (.resume pid) st1 with
          | .error e => .error e
          | .ok st2 => .ok { st2 with procs := updateProc st2.procs pid .stuDocService }
    | .stuDocService =>
        -- line 129 `with` exit: release doc_check (holder leaves `users`
        -- synchronously; the Release event re-runs the granting pass later),
        -- then line 133: start_wait := env.now, line 134: request
        -- registration, suspend at `yield req`
        let st1 := { st with
          doc_check := { st.doc_check with users := st.doc_check.users - 1 } }
        let st2 := schedule st1 st1.now 1 .trigDoc
        let sw := st2.now
        let st3 := { st2 with regReqLog := st2.regReqLog ++ [(pid, sw)] }
        let pg := requestPool counters st3.registration pid
        let st4 := scheduleGrant { st3 with registration := pg.1 } pg.2
        .ok { st4 with procs := updateProc st4.procs pid (.stuWaitReg sw) }
    | .stuWaitReg sw =>
        -- line 136: record env.now - start_wait, line 137: service delay
        let st1 := { st with
          wait_times := st.wait_times ++ [st.now - sw],
          regGrantLog := st.regGrantLog ++ [(pid, sw, st.now)] }
        match sampleExpo P.avg_service st1 with
        | .error e => .error e
        | .ok (d, st2) =>
          match mkTimeout d (.resume pid) st2 with
          | .error e => .error e
          | .ok st3 => .ok { st3 with procs := updateProc st3.procs pid .stuRegService }
    | .stuRegService =>
        -- line 134 `with` exit: release registration; the student then ends
        let st1 := { st with registration :=
          { st.registration with users := st.registration.users - 1 } }
        let st2 := schedule st1 st1.now 1 .trigReg
        .ok { st2 with procs := updateProc st2.procs pid .done }
    | .done => .error .badState

/-- Process one event's action. -/
def dispatchEv (P : Params) (counters : ℕ) (act : EAction) (st : SimState) :
    Except SimErr SimState :=
  match act with
  | .resume pid => resumeProc P counters pid st
  | .trigDoc =>
      .ok (scheduleGrant { st with doc_check := (triggerPut 5 st.doc_check).1 }
        (triggerPut 5 st.doc_check).2)
  | .trigReg =>
      .ok (scheduleGrant
        { st with registration := (triggerPut counters st.registration).1 }
        (triggerPut counters st.registration).2)

/-- Result of one scheduler step. -/
inductive StepRes where
  | halt (s : SimState)
  | err (e : SimErr) (s : SimState)
  | cont (s : SimState)
deriving Repr, DecidableEq

/-- One pass of SimPy's event loop under `env.run(until = horizon)`: stop when
no event remains or the earliest event is due at or after the horizon;
otherwise pop it, advance the clock to its due time, and process it. -/
def stepSim (P : Params) (counters : ℕ) (horizon : ℚ) (st : SimState) : StepRes :=
  match st.events with
  | [] => .halt st
  | e :: rest =>
    if horizon ≤ e.time then .halt st
    else
      match dispatchEv P counters e.act
        { st with events := rest, now := e.time, nSteps := st.nSteps + 1 } with
      | .ok st2 => .cont st2
      | .error er =>
        .err er { st with events := rest, now := e.time, nSteps := st.nSteps + 1 }

/-- Result of running the event loop to completion. -/
inductive RunOut where
  | finished (s : SimState)
  | failed (e : SimErr) (s : SimState)
  | outOfFuel (s : SimState)
deriving Repr, DecidableEq

/-- Run the event loop, bounded by `fuel` steps (the Python loop needs no
bound; every theorem below quantifies over or instantiates `fuel`). -/
def runSim (P : Params) (counters : ℕ) (horizon : ℚ) : ℕ → SimState → RunOut
  | 0, st => .outOfFuel st
  | fuel + 1, st =>
    match stepSim P counters horizon st with
    | .halt s => .finished s
    | .err e s => .failed e s
    | .cont s => runSim P counters horizon fuel s

/-- The state of a fresh `simpy.Environment()` after
`registration_simulation` has built both resources and called
`env.process(generator())` (lines 124-144): one URGENT process-creation
event (id 0) for the generator; id 1 is reserved for the stop event of
`env.run`. -/
def initState (stream : List ℚ) : SimState :=
  { now := 0, nextEid := 2, nextPid := 1,
    events := [⟨0, 0, 0, .resume 0⟩],
    procs := [(0, .genStart)],
    doc_check := Pool.init,
    registration := Pool.init,
    wait_times := [], stream := stream, nSteps := 0,
    regReqLog := [], regGrantLog := [] }

/-- The state at which `simpy.Resource(env, capacity=counters)` raises for
`counters = 0`: nothing has been scheduled or run. -/
def emptyState : SimState :=
  { now := 0, nextEid := 0, nextPid := 1, events := [], procs := [],
    doc_check := Pool.init, registration := Pool.init,
    wait_times := [], stream := [], nSteps := 0,
    regReqLog := [], regGrantLog := [] }

/-- `statistics.mean`: the arithmetic mean, StatisticsError on an empty
list. -/
def statisticsMean (l : List ℚ) : Except SimErr ℚ :=
  match l with
  | [] => .error .emptyMean
  | _ => .ok (l.sum / l.length)

/-- Outcome of one `registration_simulation` call: the computed
`avg_wait` plus the final state, a raised Python exception plus the state at
the raise, or fuel exhaustion (model artifact). -/
inductive SimOut where
  | ok (mean_wait : ℚ) (final : SimState)
  | error (e : SimErr) (final : SimState)
  | outOfFuel (final : SimState)
deriving Repr, DecidableEq

/-- `registration_simulation(env, counters, results)` (lines 123-149) for one
fresh environment: construct the resources (capacity must be positive —
SimPy's constructor check), start the generator, `env.run(until = horizon)`
(which raises if `horizon ≤ 0`), then `statistics.mean(wait_times)`.
The module constants are generalized to arguments: the Python code reads
`avg_doc_check`, `avg_service`, `SIM_INTER_ARRIVAL` and `SIM_TIME` as
module-level variables. -/
def registration_simulation (P : Params) (counters : ℕ) (horizon : ℚ)
    (fuel : ℕ) (stream : List ℚ) : SimOut :=
  if counters = 0 then .error .invalidCapacity emptyState
  else if horizon ≤ 0 then .error .untilInPast (initState stream)
  else
    match runSim P counters horizon fuel (initState stream) with
    | .finished s =>
        match statisticsMean s.wait_times with
        | .ok m => .ok m s
        | .error e => .error e s
    | .failed e s => .error e s
    | .outOfFuel s => .outOfFuel s

/-- The remaining module-level random stream after a run (the next run of the
sweep continues from it). -/
def SimOut.streamAfter : SimOut → List ℚ
  | .ok _ s => s.stream
  | .error _ s => s.stream
  | .outOfFuel s => s.stream

/-- The `mean_wait` of a successful run. -/
def SimOut.meanOf : SimOut → Option ℚ
  | .ok m _ => some m
  | _ => none

/-- The collector list of the run. -/
def SimOut.finalWaits : SimOut → List ℚ
  | .ok _ s => s.wait_times
  | .error _ s => s.wait_times
  | .outOfFuel s => s.wait_times

/-- How many events the run executed. -/
def SimOut.stepsOf : SimOut → ℕ
  | .ok _ s => s.nSteps
  | .error _ s => s.nSteps
  | .outOfFuel s => s.nSteps

/-- Line 120: `SIM_INTER_ARRIVAL = 60 / 120`. -/
def SIM_INTER_ARRIVAL : ℚ := 60 / 120

/-- Line 121: `SIM_TIME = 600`. -/
def SIM_TIME : ℚ := 600

/-- Outcome of the sweep (lines 151-155). -/
inductive SweepOut where
  | ok (results : List (ℕ × ℚ))
  | crashed (e : SimErr) (results : List (ℕ × ℚ))
  | outOfFuel (results : List (ℕ × ℚ))
deriving Repr, DecidableEq

/-- The sweep loop (lines 154-155): each configuration is simulated with the
stream left over by the previous one; an exception aborts the whole
program with the results accumulated so far. -/
def sweepRuns (P : Params) (horizon : ℚ) (fuel : ℕ) :
    List ℕ → List ℚ → List (ℕ × ℚ) → SweepOut
  | [], _, acc => .ok acc
  | c :: cs, stream, acc =>
    match registration_simulation P c horizon fuel stream with
    | .ok m s => sweepRuns P horizon fuel cs s.stream (acc ++ [(c, m)])
    | .error e _ => .crashed e acc
    | .outOfFuel _ => .outOfFuel acc

/-- Lines 151-155: `random.seed(42)` (modelled by the stream argument: an
identical seed yields an identical stream), then one run per capacity in
`[3, 10, 12]`, all sharing the stream. -/
def simulationSweep (P : Params) (fuel : ℕ) (stream : List ℚ) : SweepOut :=
  sweepRuns P SIM_TIME fuel [3, 10, 12] stream []

/-- All states a run visits (before each step and after the last). -/
def simTrace (P : Params) (counters : ℕ) (horizon : ℚ) : ℕ → SimState → List SimState
  | 0, st => [st]
  | fuel + 1, st =>
    st :: (match stepSim P counters horizon st with
           | .cont s => simTrace P counters horizon fuel s
           | _ => [])

/-! ### Ordering of the event queue -/

/-- Heap order between events. -/
def keyLe (a b : Ev) : Prop := a.key ≤ b.key

instance : DecidableRel keyLe := fun a b => inferInstanceAs (Decidable (a.key ≤ b.key))

theorem keyLe_time {a b : Ev} (h : keyLe a b) : a.time ≤ b.time :=
  Prod.Lex.monotone_fst a.key b.key h

theorem mem_insertEv {e a : Ev} : ∀ {l : List Ev}, a ∈ insertEv e l ↔ a = e ∨ a ∈ l := by
  intro l
  induction l with
  | nil => simp [insertEv]
  | cons x xs ih =>
    by_cases h : e.key < x.key
    · rw [insertEv, if_pos h]
      simp [List.mem_cons]
    · rw [insertEv, if_neg h]
      simp only [List.mem_cons, ih]
      tauto

theorem pairwise_insertEv {e : Ev} :
    ∀ {l : List Ev}, l.Pairwise keyLe → (insertEv e l).Pairwise keyLe := by
  intro l
  induction l with
  | nil => simp [insertEv, List.Pairwise]
  | cons x xs ih =>
    intro hp
    rcases List.pairwise_cons.mp hp with ⟨hx, hxs⟩
    by_cases h : e.key < x.key
    · rw [insertEv, if_pos h]
      refine List.pairwise_cons.mpr ⟨?_, hp⟩
      intro y hy
      rcases List.mem_cons.mp hy with rfl | hy
      · exact le_of_lt h
      · exact le_trans (le_of_lt h) (hx y hy)
    · rw [insertEv, if_neg h]
      refine List.pairwise_cons.mpr ⟨?_, ih hxs⟩
      intro y hy
      rcases mem_insertEv.mp hy with rfl | hy
      · exact le_of_not_lt h
      · exact hx y hy

/-! ### Process-table lemmas -/

theorem lookupProc_update_ne {l : List (ℕ × PState)} {pid q : ℕ} {s : PState}
    (h : q ≠ pid) : lookupProc (updateProc l pid s) q = lookupProc l q := by
  induction l with
  | nil => rfl
  | cons x rest ih =>
    obtain ⟨p, ps⟩ := x
    by_cases hp : p = pid
    · subst hp
      simp [updateProc, lookupProc, Ne.symm h]
    · simp [updateProc, lookupProc, hp]
      split <;> simp_all

theorem lookupProc_update_self {l : List (ℕ × PState)} {pid : ℕ} {s : PState} :
    lookupProc (updateProc l pid s) pid = some s ∨
    lookupProc (updateProc l pid s) pid = none := by
  induction l with
  | nil => simp [updateProc, lookupProc]
  | cons x rest ih =>
    obtain ⟨p, ps⟩ := x
    by_cases hp : p = pid
    · subst hp
      simp [updateProc, lookupProc]
    · simpa [updateProc, lookupProc, hp] using ih

theorem lookupProc_append {l : List (ℕ × PState)} {p : ℕ} {s : PState} {q : ℕ} :
    lookupProc (l ++ [(p, s)]) q =
      ((lookupProc l q).orElse (fun _ => if p = q then some s else none)) := by
  induction l with
  | nil => simp [lookupProc]
  | cons x rest ih =>
    obtain ⟨r, rs⟩ := x
    by_cases hr : r = q
    · simp [lookupProc, hr]
    · simp [lookupProc, hr, ih]

/-! ### The run invariant -/

/-- The per-pool invariant of the spec: occupancy never exceeds capacity, and
the waiters that have been granted so far, in grant order, followed by the
waiters still queued, are exactly the waiters in enqueue order — i.e. units
are granted strictly in FIFO order. -/
def PoolInv (cap : ℕ) (p : Pool) : Prop :=
  p.users ≤ cap ∧ p.grantLog ++ p.queue = p.enqLog

/-- The inductive invariant of a run: both pool invariants; the event queue is
key-sorted and never holds an event due before the clock; every suspended
registration waiter recorded its request at or before the clock and is in the
request log; all recorded waits are non-negative; the collector holds exactly
the grant-minus-request differences of the registration grants, whose request
times are logged and precede their grant times. -/
def Inv (counters : ℕ) (st : SimState) : Prop :=
  PoolInv 5 st.doc_check ∧ PoolInv counters st.registration ∧
  st.events.Pairwise keyLe ∧
  (∀ e ∈ st.events, st.now ≤ e.time) ∧
  (∀ pid sw, lookupProc st.procs pid = some (.stuWaitReg sw) →
     sw ≤ st.now ∧ (pid, sw) ∈ st.regReqLog) ∧
  (∀ w ∈ st.wait_times, 0 ≤ w) ∧
  st.wait_times = st.regGrantLog.map (fun g => g.2.2 - g.2.1) ∧
  (∀ g ∈ st.regGrantLog, (g.1, g.2.1) ∈ st.regReqLog ∧ g.2.1 ≤ g.2.2)

theorem inv_initState (counters : ℕ) (stream : List ℚ) : Inv counters (initState stream) := by
  refine ⟨⟨by simp [initState, Pool.init], rfl⟩, ⟨by simp [initState, Pool.init], rfl⟩,
    ?_, ?_, ?_, ?_, rfl, ?_⟩
  · simp [initState]
  · intro e he
    simp [initState] at he ⊢
    simp [he]
  · intro pid sw h
    rcases eq_or_ne pid 0 with rfl | hp
    · simp [initState, lookupProc] at h
    · simp [initState, lookupProc, Ne.symm hp] at h
  · intro w hw
    simp [initState] at hw
  · intro g hg
    simp [initState] at hg

/-! ### Characterizations of the sampling helpers -/

theorem sampleExpo_ok {mean : ℚ} {st : SimState} {d : ℚ} {st' : SimState}
    (h : sampleExpo mean st = .ok (d, st')) :
    ∃ u rest, st.stream = u :: rest ∧ st' = { st with stream := rest } := by
  by_cases hm : mean = 0
  · simp [sampleExpo, pyDiv, hm] at h
  · cases hs : st.stream with
    | nil => simp [sampleExpo, pyDiv, hm, drawStream, hs] at h
    | cons u rest =>
      refine ⟨u, rest, rfl, ?_⟩
      have hl : (1 : ℚ) / mean ≠ 0 := by
        simp [one_div, inv_eq_zero, hm]
      simp [sampleExpo, pyDiv, hm, drawStream, hs, hl] at h
      exact h.2.symm

theorem mkTimeout_ok {d : ℚ} {act : EAction} {st st' : SimState}
    (h : mkTimeout d act st = .ok st') :
    0 ≤ d ∧ st' = schedule st (st.now + d) 1 act := by
  by_cases hd : d < 0
  · simp [mkTimeout, hd] at h
  · simp [mkTimeout, hd] at h
    exact ⟨le_of_not_lt hd, h.symm⟩

/-! ### Invariant preservation through the state-manipulation helpers -/

theorem inv_schedule {counters : ℕ} {st : SimState} {t : ℚ} {pr : ℕ} {a : EAction}
    (h : Inv counters st) (ht : st.now ≤ t) : Inv counters (schedule st t pr a) := by
  obtain ⟨h1, h2, h3, h4, h5, h6, h7, h8⟩ := h
  refine ⟨h1, h2, pairwise_insertEv h3, ?_, h5, h6, h7, h8⟩
  intro e he
  rcases mem_insertEv.mp he with rfl | he
  · exact ht
  · exact h4 e he

theorem inv_scheduleGrant {counters : ℕ} {st : SimState} {g : Option ℕ}
    (h : Inv counters st) : Inv counters (scheduleGrant st g) := by
  cases g with
  | none => exact h
  | some pid => exact inv_schedule h le_rfl

theorem scheduleGrant_now {st : SimState} {g : Option ℕ} :
    (scheduleGrant st g).now = st.now := by
  cases g <;> rfl

theorem scheduleGrant_regReqLog {st : SimState} {g : Option ℕ} :
    (scheduleGrant st g).regReqLog = st.regReqLog := by
  cases g <;> rfl

theorem scheduleGrant_registration {st : SimState} {g : Option ℕ} :
    (scheduleGrant st g).registration = st.registration := by
  cases g <;> rfl

theorem inv_setStream {counters : ℕ} {st : SimState} {l : List ℚ} (h : Inv counters st) :
    Inv counters { st with stream := l } := h

theorem inv_setDoc {counters : ℕ} {st : SimState} {p : Pool} (h : Inv counters st)
    (hp : PoolInv 5 p) : Inv counters { st with doc_check := p } := by
  obtain ⟨_, h2, h3, h4, h5, h6, h7, h8⟩ := h
  exact ⟨hp, h2, h3, h4, h5, h6, h7, h8⟩

theorem inv_setReg {counters : ℕ} {st : SimState} {p : Pool} (h : Inv counters st)
    (hp : PoolInv counters p) : Inv counters { st with registration := p } := by
  obtain ⟨h1, _, h3, h4, h5, h6, h7, h8⟩ := h
  exact ⟨h1, hp, h3, h4, h5, h6, h7, h8⟩

theorem inv_reqLogAppend {counters : ℕ} {st : SimState} {l : List (ℕ × ℚ)}
    (h : Inv counters st) : Inv counters { st with regReqLog := st.regReqLog ++ l } := by
  obtain ⟨h1, h2, h3, h4, h5, h6, h7, h8⟩ := h
  refine ⟨h1, h2, h3, h4, ?_, h6, h7, ?_⟩
  · intro pid sw hl
    rcases h5 pid sw hl with ⟨hle, hmem⟩
    exact ⟨hle, List.mem_append_left _ hmem⟩
  · intro g hg
    rcases h8 g hg with ⟨hmem, hle⟩
    exact ⟨List.mem_append_left _ hmem, hle⟩

theorem inv_updateProcOther {counters : ℕ} {st : SimState} {pid : ℕ} {s : PState}
    (h : Inv counters st) (hs : ∀ sw, s ≠ .stuWaitReg sw) :
    Inv counters { st with procs := updateProc st.procs pid s } := by
  obtain ⟨h1, h2, h3, h4, h5, h6, h7, h8⟩ := h
  refine ⟨h1, h2, h3, h4, ?_, h6, h7, h8⟩
  intro q sw hq
  by_cases hqp : q = pid
  · subst hqp
    rcases @lookupProc_update_self st.procs q s with he | he <;>
      rw [he] at hq
    · exact absurd (Option.some.inj hq) (hs sw)
    · exact absurd hq (by simp)
  · rw [lookupProc_update_ne hqp] at hq
    exact h5 q sw hq

theorem inv_updateProcReg {counters : ℕ} {st : SimState} {pid : ℕ} {sw : ℚ}
    (h : Inv counters st) (hsw : sw ≤ st.now) (hmem : (pid, sw) ∈ st.regReqLog) :
    Inv counters { st with procs := updateProc st.procs pid (.stuWaitReg sw) } := by
  obtain ⟨h1, h2, h3, h4, h5, h6, h7, h8⟩ := h
  refine ⟨h1, h2, h3, h4, ?_, h6, h7, h8⟩
  intro q sw' hq
  by_cases hqp : q = pid
  · subst hqp
    rcases @lookupProc_update_self st.procs q (.stuWaitReg sw) with
      he | he <;> rw [he] at hq
    · obtain rfl : sw = sw' := by
        simpa using Option.some.inj hq
      exact ⟨hsw, hmem⟩
    · exact absurd hq (by simp)
  · rw [lookupProc_update_ne hqp] at hq
    exact h5 q sw' hq

theorem inv_procsAppend {counters : ℕ} {st : SimState} {n p : ℕ} {s : PState}
    (h : Inv counters st) (hs : ∀ sw, s ≠ .stuWaitReg sw) :
    Inv counters { st with nextPid := n, procs := st.procs ++ [(p, s)] } := by
  obtain ⟨h1, h2, h3, h4, h5, h6, h7, h8⟩ := h
  refine ⟨h1, h2, h3, h4, ?_, h6, h7, h8⟩
  intro q sw hq
  rw [lookupProc_append] at hq
  cases hl : lookupProc st.procs q with
  | some x =>
    rw [hl] at hq
    have hx : x = PState.stuWaitReg sw := by simpa using hq
    exact h5 q sw (hl.trans (by rw [hx]))
  | none =>
    rw [hl] at hq
    by_cases hpq : p = q
    · simp [hpq, Option.orElse] at hq
      exact absurd hq (hs sw)
    · simp [hpq, Option.orElse] at hq

theorem inv_record {counters : ℕ} {st : SimState} {pid : ℕ} {sw : ℚ}
    (h : Inv counters st) (hl : lookupProc st.procs pid = some (.stuWaitReg sw)) :
    Inv counters
      { st with wait_times := st.wait_times ++ [st.now - sw],
                regGrantLog := st.regGrantLog ++ [(pid, sw, st.now)] } := by
  obtain ⟨h1, h2, h3, h4, h5, h6, h7, h8⟩ := h
  rcases h5 pid sw hl with ⟨hsw, hmem⟩
  refine ⟨h1, h2, h3, h4, h5, ?_, ?_, ?_⟩
  · intro w hw
    rcases List.mem_append.mp hw with hw | hw
    · exact h6 w hw
    · rcases List.mem_singleton.mp hw with rfl
      exact sub_nonneg.mpr hsw
  · simp [h7]
  · intro g hg
    rcases List.mem_append.mp hg with hg | hg
    · exact h8 g hg
    · rcases List.mem_singleton.mp hg with rfl
      exact ⟨hmem, hsw⟩

theorem poolInv_triggerPut {cap : ℕ} {p : Pool} (h : PoolInv cap p) :
    PoolInv cap (triggerPut cap p).1 := by
  obtain ⟨h1, h2⟩ := h
  cases hq : p.queue with
  | nil =>
    have ht : triggerPut cap p = (p, none) := by simp [triggerPut, hq]
    rw [ht]
    exact ⟨h1, h2⟩
  | cons q0 rest =>
    by_cases hu : p.users < cap
    · have ht : triggerPut cap p =
          ({ p with users := p.users + 1, queue := rest,
                    grantLog := p.grantLog ++ [q0] }, some q0) := by
        simp [triggerPut, hq, hu]
      rw [ht]
      refine ⟨hu, ?_⟩
      show (p.grantLog ++ [q0]) ++ rest = p.enqLog
      rw [List.append_assoc, List.singleton_append, ← hq, h2]
    · have ht : triggerPut cap p = (p, none) := by simp [triggerPut, hq, hu]
      rw [ht]
      exact ⟨h1, h2⟩

theorem poolInv_requestPool {cap : ℕ} {p : Pool} {pid : ℕ} (h : PoolInv cap p) :
    PoolInv cap (requestPool cap p pid).1 := by
  obtain ⟨h1, h2⟩ := h
  have hp1 : PoolInv cap
      { p with queue := p.queue ++ [pid], enqLog := p.enqLog ++ [pid] } := by
    refine ⟨h1, ?_⟩
    simp [← h2]
  have hp2 := poolInv_triggerPut hp1
  exact hp2

theorem poolInv_release {cap : ℕ} {p : Pool} (h : PoolInv cap p) :
    PoolInv cap { p with users := p.users - 1 } :=
  ⟨le_trans (Nat.sub_le _ _) h.1, h.2⟩

/-! ### Preservation of the invariant by every step -/

theorem inv_resumeProc {P : Params} {counters pid : ℕ} {st st' : SimState}
    (h : Inv counters st) (hr : resumeProc P counters pid st = .ok st') :
    Inv counters st' := by
  unfold resumeProc at hr
  cases hl : lookupProc st.procs pid with
  | none => rw [hl] at hr; simp at hr
  | some ps =>
    rw [hl] at hr
    cases ps with
    | genStart =>
      dsimp only at hr
      cases he : sampleExpo P.interArrival st with
      | error e => rw [he] at hr; simp at hr
      | ok pr =>
        obtain ⟨d, st1⟩ := pr
        rw [he] at hr
        dsimp only at hr
        cases ht : mkTimeout d (.resume pid) st1 with
        | error e => rw [ht] at hr; simp at hr
        | ok st2 =>
          rw [ht] at hr
          injection hr with hr
          subst hr
          obtain ⟨u, rest, hus, rfl⟩ := sampleExpo_ok he
          obtain ⟨hd, rfl⟩ := mkTimeout_ok ht
          exact inv_updateProcOther
            (inv_schedule (inv_setStream h) (le_add_of_nonneg_right hd))
            (fun sw => by simp)
    | genWait =>
      dsimp only at hr
      split at hr
      · simp at hr
      · next d st3 he =>
        obtain ⟨u, rest, hus, rfl⟩ := sampleExpo_ok he
        obtain ⟨hd, rfl⟩ := mkTimeout_ok hr
        exact inv_schedule
          (inv_setStream
            (inv_schedule (inv_procsAppend h (fun sw => by simp)) le_rfl))
          (le_add_of_nonneg_right hd)
    | stuStart =>
      dsimp only at hr
      injection hr with hr
      subst hr
      exact inv_updateProcOther
        (inv_scheduleGrant (inv_setDoc h (poolInv_requestPool h.1)))
        (fun sw => by simp)
    | stuWaitDoc =>
      dsimp only at hr
      cases he : sampleExpo P.avg_doc_check st with
      | error e => rw [he] at hr; simp at hr
      | ok pr =>
        obtain ⟨d, st1⟩ := pr
        rw [he] at hr
        dsimp only at hr
        cases ht : mkTimeout d (.resume pid) st1 with
        | error e => rw [ht] at hr; simp at hr
        | ok st2 =>
          rw [ht] at hr
          injection hr with hr
          subst hr
          obtain ⟨u, rest, hus, rfl⟩ := sampleExpo_ok he
          obtain ⟨hd, rfl⟩ := mkTimeout_ok ht
          exact inv_updateProcOther
            (inv_schedule (inv_setStream h) (le_add_of_nonneg_right hd))
            (fun sw => by simp)
    | stuDocService =>
      dsimp only at hr
      injection hr with hr
      subst hr
      have h3 : Inv counters { st with
          doc_check := { st.doc_check with users := st.doc_check.users - 1 },
          events := insertEv ⟨st.now, 1, st.nextEid, .trigDoc⟩ st.events,
          nextEid := st.nextEid + 1,
          regReqLog := st.regReqLog ++ [(pid, st.now)] } :=
        inv_reqLogAppend (inv_schedule (inv_setDoc h (poolInv_release h.1)) le_rfl)
      refine inv_updateProcReg
        (inv_scheduleGrant (inv_setReg h3 (poolInv_requestPool h3.2.1))) ?_ ?_
      · rw [scheduleGrant_now]
      · rw [scheduleGrant_regReqLog]
        exact List.mem_append_right _ (List.mem_singleton.mpr rfl)
    | stuWaitReg sw =>
      dsimp only at hr
      cases he : sampleExpo P.avg_service { st with
          wait_times := st.wait_times ++ [st.now - sw],
          regGrantLog := st.regGrantLog ++ [(pid, sw, st.now)] } with
      | error e => rw [he] at hr; simp at hr
      | ok pr =>
        obtain ⟨d, st2⟩ := pr
        rw [he] at hr
        dsimp only at hr
        cases ht : mkTimeout d (.resume pid) st2 with
        | error e => rw [ht] at hr; simp at hr
        | ok st3 =>
          rw [ht] at hr
          injection hr with hr
          subst hr
          obtain ⟨u, rest, hus, rfl⟩ := sampleExpo_ok he
          obtain ⟨hd, rfl⟩ := mkTimeout_ok ht
          exact inv_updateProcOther
            (inv_schedule (inv_setStream (inv_record h hl))
              (le_add_of_nonneg_right hd))
            (fun sw' => by simp)
    | stuRegService =>
      dsimp only at hr
      injection hr with hr
      subst hr
      exact inv_updateProcOther
        (inv_schedule (inv_setReg h (poolInv_release h.2.1)) le_rfl)
        (fun sw => by simp)
    | done => simp at hr

theorem inv_dispatchEv {P : Params} {counters : ℕ} {a : EAction} {st st' : SimState}
    (h : Inv counters st) (hd : dispatchEv P counters a st = .ok st') :
    Inv counters st' := by
  cases a with
  | resume pid => exact inv_resumeProc h hd
  | trigDoc =>
    injection hd with hd
    subst hd
    exact inv_scheduleGrant (inv_setDoc h (poolInv_triggerPut h.1))
  | trigReg =>
    injection hd with hd
    subst hd
    exact inv_scheduleGrant (inv_setReg h (poolInv_triggerPut h.2.1))

theorem inv_step {P : Params} {counters : ℕ} {horizon : ℚ} {st st' : SimState}
    (h : Inv counters st) (hs : stepSim P counters horizon st = .cont st') :
    Inv counters st' := by
  unfold stepSim at hs
  cases hev : st.events with
  | nil => rw [hev] at hs; simp at hs
  | cons e rest =>
    rw [hev] at hs
    dsimp only at hs
    by_cases hh : horizon ≤ e.time
    · rw [if_pos hh] at hs; simp at hs
    · rw [if_neg hh] at hs
      have h1 : Inv counters
          { st with events := rest, now := e.time, nSteps := st.nSteps + 1 } := by
        obtain ⟨c1, c2, c3, c4, c5, c6, c7, c8⟩ := h
        have hpw := List.pairwise_cons.mp (by rwa [hev] at c3)
        have hnow : st.now ≤ e.time := c4 e (by rw [hev]; exact List.mem_cons_self e rest)
        refine ⟨c1, c2, hpw.2, ?_, ?_, c6, c7, c8⟩
        · intro e' he'
          exact keyLe_time (hpw.1 e' he')
        · intro pidq sw hq
          rcases c5 pidq sw hq with ⟨hle, hmem⟩
          exact ⟨le_trans hle hnow, hmem⟩
      cases hde : dispatchEv P counters e.act
          { st with events := rest, now := e.time, nSteps := st.nSteps + 1 } with
      | ok s2 =>
        rw [hde] at hs
        injection hs with hs
        subst hs
        exact inv_dispatchEv h1 hde
      | error er => rw [hde] at hs; simp at hs

theorem inv_trace {P : Params} {counters : ℕ} {horizon : ℚ} :
    ∀ {fuel : ℕ} {st st' : SimState},
      Inv counters st → st' ∈ simTrace P counters horizon fuel st →
      Inv counters st' := by
  intro fuel
  induction fuel with
  | zero =>
    intro st st' h hm
    rw [simTrace] at hm
    rcases List.mem_singleton.mp hm with rfl
    exact h
  | succ f ih =>
    intro st st' h hm
    rw [simTrace] at hm
    rcases List.mem_cons.mp hm with rfl | hm
    · exact h
    · cases hs : stepSim P counters horizon st with
      | cont s => rw [hs] at hm; exact ih (inv_step h hs) hm
      | halt s => rw [hs] at hm; simp at hm
      | err e s => rw [hs] at hm; simp at hm

/-! ### Capacity irrelevance on contention-free runs

If a run at registration capacity `c1` never leaves a request waiting
(`everQueued` stays false), then every registration request found a free
unit, so the very same run happens at any capacity `c2 ≥ c1`: the grant
decisions `users < c1` and `users < c2` agree at every request.  These lemmas
establish that step by step. -/

theorem triggerPut_nil {cap : ℕ} {p : Pool} (hq : p.queue = []) :
    triggerPut cap p = (p, none) := by
  simp [triggerPut, hq]

theorem requestPool_grantNow {cap cap2 : ℕ} {p : Pool} {pid : ℕ}
    (hcap : cap ≤ cap2) (hq : p.queue = [])
    (hres : (requestPool cap p pid).1.everQueued = false) :
    requestPool cap2 p pid = requestPool cap p pid ∧
    (requestPool cap p pid).1.queue = [] := by
  by_cases hu : p.users < cap
  · have hu2 : p.users < cap2 := lt_of_lt_of_le hu hcap
    constructor
    · simp [requestPool, triggerPut, hq, hu, hu2]
    · simp [requestPool, triggerPut, hq, hu]
  · exfalso
    rw [show (requestPool cap p pid).1.everQueued = true by
      simp [requestPool, triggerPut, hq, hu]] at hres
    exact absurd hres (by simp)

theorem resumeProc_capIrrel {P : Params} {c1 c2 pid : ℕ} {st st' : SimState}
    (hc : c1 ≤ c2) (hq : st.registration.queue = [])
    (hr : resumeProc P c1 pid st = .ok st')
    (hflag : st'.registration.everQueued = false) :
    resumeProc P c2 pid st = .ok st' ∧ st'.registration.queue = [] := by
  unfold resumeProc at hr ⊢
  cases hl : lookupProc st.procs pid with
  | none => rw [hl] at hr; simp at hr
  | some ps =>
    rw [hl] at hr
    cases ps with
    | genStart =>
      dsimp only at hr ⊢
      cases he : sampleExpo P.interArrival st with
      | error e => rw [he] at hr; simp at hr
      | ok pr =>
        obtain ⟨d, st1⟩ := pr
        rw [he] at hr
        dsimp only at hr ⊢
        cases ht : mkTimeout d (.resume pid) st1 with
        | error e => rw [ht] at hr; simp at hr
        | ok st2 =>
          rw [ht] at hr
          injection hr with hr
          subst hr
          obtain ⟨u, rest, hus, rfl⟩ := sampleExpo_ok he
          obtain ⟨hd, rfl⟩ := mkTimeout_ok ht
          exact ⟨rfl, hq⟩
    | genWait =>
      dsimp only at hr ⊢
      split at hr
      · simp at hr
      · next d st3 he =>
        obtain ⟨u, rest, hus, rfl⟩ := sampleExpo_ok he
        obtain ⟨hd, rfl⟩ := mkTimeout_ok hr
        exact ⟨hr, hq⟩
    | stuStart =>
      dsimp only at hr ⊢
      injection hr with hr
      subst hr
      refine ⟨rfl, ?_⟩
      dsimp only
      rw [scheduleGrant_registration]
      exact hq
    | stuWaitDoc =>
      dsimp only at hr ⊢
      cases he : sampleExpo P.avg_doc_check st with
      | error e => rw [he] at hr; simp at hr
      | ok pr =>
        obtain ⟨d, st1⟩ := pr
        rw [he] at hr
        dsimp only at hr ⊢
        cases ht : mkTimeout d (.resume pid) st1 with
        | error e => rw [ht] at hr; simp at hr
        | ok st2 =>
          rw [ht] at hr
          injection hr with hr
          subst hr
          obtain ⟨u, rest, hus, rfl⟩ := sampleExpo_ok he
          obtain ⟨hd, rfl⟩ := mkTimeout_ok ht
          exact ⟨rfl, hq⟩
    | stuDocService =>
      dsimp only [schedule] at hr ⊢
      injection hr with hr
      subst hr
      have hres : (requestPool c1 st.registration pid).1.everQueued = false := by
        simpa [scheduleGrant_registration, schedule] using hflag
      obtain ⟨hpg, hpq⟩ := requestPool_grantNow hc hq hres
      refine ⟨by rw [hpg], ?_⟩
      dsimp only
      rw [scheduleGrant_registration]
      exact hpq
    | stuWaitReg sw =>
      dsimp only at hr ⊢
      cases he : sampleExpo P.avg_service { st with
          wait_times := st.wait_times ++ [st.now - sw],
          regGrantLog := st.regGrantLog ++ [(pid, sw, st.now)] } with
      | error e => rw [he] at hr; simp at hr
      | ok pr =>
        obtain ⟨d, st2⟩ := pr
        rw [he] at hr
        dsimp only at hr ⊢
        cases ht : mkTimeout d (.resume pid) st2 with
        | error e => rw [ht] at hr; simp at hr
        | ok st3 =>
          rw [ht] at hr
          injection hr with hr
          subst hr
          obtain ⟨u, rest, hus, rfl⟩ := sampleExpo_ok he
          obtain ⟨hd, rfl⟩ := mkTimeout_ok ht
          exact ⟨rfl, hq⟩
    | stuRegService =>
      dsimp only at hr ⊢
      injection hr with hr
      subst hr
      exact ⟨rfl, hq⟩
    | done => simp at hr

theorem dispatchEv_capIrrel {P : Params} {c1 c2 : ℕ} {a : EAction} {st st' : SimState}
    (hc : c1 ≤ c2) (hq : st.registration.queue = [])
    (hd : dispatchEv P c1 a st = .ok st')
    (hflag : st'.registration.everQueued = false) :
    dispatchEv P c2 a st = .ok st' ∧ st'.registration.queue = [] := by
  cases a with
  | resume pid => exact resumeProc_capIrrel hc hq hd hflag
  | trigDoc =>
    unfold dispatchEv at hd ⊢
    dsimp only at hd ⊢
    refine ⟨hd, ?_⟩
    injection hd with hd
    subst hd
    rw [scheduleGrant_registration]
    exact hq
  | trigReg =>
    unfold dispatchEv at hd ⊢
    dsimp only at hd ⊢
    rw [triggerPut_nil hq] at hd ⊢
    dsimp only at hd ⊢
    refine ⟨hd, ?_⟩
    injection hd with hd
    subst hd
    exact hq

theorem stepSim_halt_eq {P : Params} {c : ℕ} {horizon : ℚ} {st s : SimState}
    (h : stepSim P c horizon st = .halt s) : s = st := by
  unfold stepSim at h
  cases hev : st.events with
  | nil =>
    rw [hev] at h
    dsimp only at h
    injection h with h
    exact h.symm
  | cons e rest =>
    rw [hev] at h
    dsimp only at h
    by_cases hh : horizon ≤ e.time
    · rw [if_pos hh] at h
      injection h with h
      exact h.symm
    · rw [if_neg hh] at h
      cases hde : dispatchEv P c e.act
          { st with events := rest, now := e.time, nSteps := st.nSteps + 1 } with
      | ok s2 => rw [hde] at h; simp at h
      | error er => rw [hde] at h; simp at h

theorem stepSim_halt_capIrrel {P : Params} {c1 c2 : ℕ} {horizon : ℚ} {st : SimState}
    (h : stepSim P c1 horizon st = .halt st) :
    stepSim P c2 horizon st = .halt st := by
  unfold stepSim at h ⊢
  cases hev : st.events with
  | nil => dsimp only
  | cons e rest =>
    rw [hev] at h
    dsimp only at h ⊢
    by_cases hh : horizon ≤ e.time
    · rw [if_pos hh]
    · exfalso
      rw [if_neg hh] at h
      cases hde : dispatchEv P c1 e.act
          { st with events := rest, now := e.time, nSteps := st.nSteps + 1 } with
      | ok s2 => rw [hde] at h; simp at h
      | error er => rw [hde] at h; simp at h

theorem stepSim_capIrrel {P : Params} {c1 c2 : ℕ} {horizon : ℚ} {st st' : SimState}
    (hc : c1 ≤ c2) (hq : st.registration.queue = [])
    (hs : stepSim P c1 horizon st = .cont st')
    (hflag : st'.registration.everQueued = false) :
    stepSim P c2 horizon st = .cont st' ∧ st'.registration.queue = [] := by
  unfold stepSim at hs ⊢
  cases hev : st.events with
  | nil => rw [hev] at hs; simp at hs
  | cons e rest =>
    rw [hev] at hs
    dsimp only at hs ⊢
    by_cases hh : horizon ≤ e.time
    · rw [if_pos hh] at hs; simp at hs
    · rw [if_neg hh] at hs ⊢
      cases hde : dispatchEv P c1 e.act
          { st with events := rest, now := e.time, nSteps := st.nSteps + 1 } with
      | ok s2 =>
        rw [hde] at hs
        injection hs with hs
        subst hs
        have hq1 : ({ st with events := rest, now := e.time, nSteps := st.nSteps + 1 } :
            SimState).registration.queue = [] := hq
        obtain ⟨hd2, hq'⟩ := dispatchEv_capIrrel hc hq1 hde hflag
        rw [hd2]
        exact ⟨rfl, hq'⟩
      | error er => rw [hde] at hs; simp at hs

theorem self_mem_simTrace {P : Params} {c : ℕ} {horizon : ℚ} {fuel : ℕ}
    {st : SimState} : st ∈ simTrace P c horizon fuel st := by
  cases fuel <;> simp [simTrace]

theorem runSim_capIrrel {P : Params} {c1 c2 : ℕ} {horizon : ℚ} (hc : c1 ≤ c2) :
    ∀ {fuel : ℕ} {st s : SimState},
      st.registration.queue = [] →
      (∀ x ∈ simTrace P c1 horizon fuel st, x.registration.everQueued = false) →
      runSim P c1 horizon fuel st = .finished s →
      runSim P c2 horizon fuel st = .finished s := by
  intro fuel
  induction fuel with
  | zero =>
    intro st s _ _ h
    rw [runSim] at h
    exact absurd h (by simp)
  | succ f ih =>
    intro st s hq htr h
    rw [runSim] at h ⊢
    cases hs : stepSim P c1 horizon st with
    | halt s0 =>
      rw [hs] at h
      dsimp only at h
      injection h with h
      obtain rfl : s0 = st := stepSim_halt_eq hs
      subst h
      rw [stepSim_halt_capIrrel hs]
    | err e s0 => rw [hs] at h; simp at h
    | cont st1 =>
      rw [hs] at h
      have hflag1 : st1.registration.everQueued = false := by
        apply htr
        rw [simTrace, hs]
        exact List.mem_cons_of_mem _ self_mem_simTrace
      obtain ⟨hs2, hq1⟩ := stepSim_capIrrel hc hq hs hflag1
      rw [hs2]
      refine ih hq1 ?_ h
      intro x hx
      apply htr
      rw [simTrace, hs]
      exact List.mem_cons_of_mem _ hx

/-! ### Further extractors and concrete instances used by the claims -/

/-- The raised exception of a run, if any. -/
def SimOut.errOf : SimOut → Option SimErr
  | .error e _ => some e
  | _ => none

/-- The claim's notion of an InvalidParameter rejection: the call fails with
an error raised before any scheduling, i.e. with zero events executed. -/
def rejectedUpFront : SimOut → Prop
  | .error _ s => s.nSteps = 0
  | .ok _ _ => False
  | .outOfFuel _ => False

theorem rejectedUpFront_stepsOf {out : SimOut} (h : rejectedUpFront out) :
    out.stepsOf = 0 := by
  cases out with
  | error e s => exact h
  | ok m s => exact h.elim
  | outOfFuel s => exact h.elim

theorem statisticsMean_ok {l : List ℚ} {m : ℚ} (h : statisticsMean l = .ok m) :
    l ≠ [] ∧ m = l.sum / l.length := by
  cases l with
  | nil => simp [statisticsMean] at h
  | cons w ws =>
    refine ⟨by simp, ?_⟩
    have h2 : (Except.ok ((w :: ws).sum / ((w :: ws).length : ℚ)) :
        Except SimErr ℚ) = .ok m := h
    injection h2 with h2
    exact h2.symm

/-- Sampling parameters with the code's inter-arrival constant and positive
service means (the CSV-derived `avg_doc_check` and `avg_service` instantiated
at 1 minute each). -/
def P0 : Params := ⟨SIM_INTER_ARRIVAL, 1, 1⟩

/-- A configuration with a non-positive mean: `avg_doc_check = 0`. -/
def P6 : Params := ⟨SIM_INTER_ARRIVAL, 0, 1⟩

/-- A draw stream on which capacity 1 yields mean wait 0 but capacity 2
yields mean wait 1/20 (see `c3_monotonicity_fails`): with one extra counter
the second student is granted at once, so its huge service draw (position 6)
is consumed as a service time and keeps a counter busy, making the third
student wait; with one counter that draw is consumed as an inter-arrival gap
instead, and the third student never reaches the registration queue before
the horizon. -/
def S3 : List ℚ := [2, 8, 1/4, 100, 4, 1/4, 2, 1000, 1/10, 100, 10000, 100]

/-- A short contention-free stream: one student arrives at t = 1, is granted
both resources at once, records wait 0, and the next arrival lands beyond the
horizon. -/
def S8 : List ℚ := [2, 2000, 1/4, 100]

/-- A second generator state for the same configuration: two students, the
second one waiting 6 minutes for the single counter (mean 3). -/
def S9B : List ℚ := [2, 8, 1/4, 10, 4000, 1/4, 100]

/-- The last state of the traced `S8` run at one counter — a concrete
mid-simulation state the invariant witnesses are instantiated at. -/
def lastTraceState : SimState :=
  (simTrace P0 1 20 40 (initState S8)).getLastD emptyState

/-! ### The claims -/

/-- C1.  The spec says a run in which zero entities complete stage 2 before
the horizon must be reported as a distinct DegenerateRun condition inside the
RunResult and must never crash.  The code instead calls
`statistics.mean(wait_times)` on the empty list (line 147), which raises
StatisticsError — a crash that aborts the sweep.  Concretely: with the first
inter-arrival draw at 2000 the first student arrives at virtual time 1000,
past the 600-minute horizon, so no wait is recorded and finalization raises
(`emptyMean`) instead of producing a mean. -/
theorem c1_degenerate_run_crashes :
    (registration_simulation P0 3 600 10 [2000]).finalWaits = [] ∧
    (registration_simulation P0 3 600 10 [2000]).errOf = some .emptyMean ∧
    (registration_simulation P0 3 600 10 [2000]).meanOf = none := by
  refine ⟨by with_unfolding_all rfl, by with_unfolding_all rfl, by with_unfolding_all rfl⟩

/-- C2.  Determinism: two sweeps with identical seed (identical modelled draw
stream) and identical parameters produce identical RunResult sequences —
the simulation is a pure function of the stream and the parameters, with no
other input. -/
theorem c2_sweep_deterministic (P1 P2 : Params) (f1 f2 : ℕ) (s1 s2 : List ℚ)
    (hP : P1 = P2) (hf : f1 = f2) (hs : s1 = s2) :
    simulationSweep P1 f1 s1 = simulationSweep P2 f2 s2 := by
  subst hP
  subst hf
  subst hs
  rfl

theorem c2_sweep_deterministic_witness :
    simulationSweep P0 40 S8 = simulationSweep P0 40 S8 :=
  c2_sweep_deterministic P0 P0 40 40 S8 S8 rfl rfl rfl

/-- C3, counterexample.  Mean stage-2 wait is not monotone in registration
capacity on a fixed seeded stream: on `S3`, one counter gives mean wait 0 but
two counters give mean wait 1/20 > 0.  Raising the capacity reshuffles which
draws of the shared stream become service times versus inter-arrival gaps,
so a larger capacity can produce a strictly larger mean. -/
theorem c3_monotonicity_fails :
    (registration_simulation P0 1 20 60 S3).meanOf = some 0 ∧
    (registration_simulation P0 2 20 60 S3).meanOf = some (1/20) ∧
    ¬ ((1 : ℚ)/20 ≤ 0) := by
  refine ⟨by with_unfolding_all rfl, by with_unfolding_all rfl, by norm_num⟩

/-- C3, amended.  If the run at the smaller capacity `c1` never leaves any
entity waiting for a registration counter (no request ever queues — the
contention-free case, in which the shared stream is consumed identically by
both runs), then the run at any capacity `c2 ≥ c1` is the very same run and
its mean wait is ≤ (indeed =) the mean wait at `c1`. -/
theorem c3_no_contention_capacity_increase (P : Params) (horizon : ℚ)
    (fuel c1 c2 : ℕ) (stream : List ℚ) (m1 : ℚ) (hc : c1 ≤ c2)
    (h1 : (registration_simulation P c1 horizon fuel stream).meanOf = some m1)
    (hnoq : ∀ x ∈ simTrace P c1 horizon fuel (initState stream),
      x.registration.everQueued = false) :
    ∃ m2, (registration_simulation P c2 horizon fuel stream).meanOf = some m2 ∧
      m2 ≤ m1 := by
  unfold registration_simulation at h1 ⊢
  by_cases hc1 : c1 = 0
  · rw [if_pos hc1] at h1
    simp [SimOut.meanOf] at h1
  · rw [if_neg hc1] at h1
    have hc2 : c2 ≠ 0 := fun h => hc1 (by omega)
    rw [if_neg hc2]
    by_cases hh : horizon ≤ 0
    · rw [if_pos hh] at h1
      simp [SimOut.meanOf] at h1
    · rw [if_neg hh] at h1 ⊢
      cases hrun : runSim P c1 horizon fuel (initState stream) with
      | finished s =>
        rw [hrun] at h1
        rw [runSim_capIrrel hc rfl hnoq hrun]
        exact ⟨m1, h1, le_rfl⟩
      | failed e s =>
        rw [hrun] at h1
        simp [SimOut.meanOf] at h1
      | outOfFuel s =>
        rw [hrun] at h1
        simp [SimOut.meanOf] at h1

theorem c3_no_contention_capacity_increase_witness :
    ∃ m2, (registration_simulation P0 2 20 40 S8).meanOf = some m2 ∧
      m2 ≤ 0 :=
  c3_no_contention_capacity_increase P0 20 40 1 2 S8 0 (by decide)
    (by with_unfolding_all rfl) (by apply of_decide_eq_true; with_unfolding_all rfl)

/-- C4.  Pool occupancy invariant: at every state of a traced run,
`0 ≤ in_use ≤ capacity` for both resources (capacity 5 for document check,
`counters` for registration).  `in_use` models `len(resource.users)`, so the
lower bound is by construction, as in the Python source. -/
theorem c4_pool_occupancy_bounds (P : Params) (counters : ℕ) (horizon : ℚ)
    (fuel : ℕ) (stream : List ℚ) (st : SimState)
    (hmem : st ∈ simTrace P counters horizon fuel (initState stream)) :
    (0 ≤ st.doc_check.users ∧ st.doc_check.users ≤ 5) ∧
    (0 ≤ st.registration.users ∧ st.registration.users ≤ counters) := by
  have h := inv_trace (inv_initState counters stream) hmem
  exact ⟨⟨Nat.zero_le _, h.1.1⟩, ⟨Nat.zero_le _, h.2.1.1⟩⟩

theorem c4_pool_occupancy_bounds_witness :
    (0 ≤ lastTraceState.doc_check.users ∧ lastTraceState.doc_check.users ≤ 5) ∧
    (0 ≤ lastTraceState.registration.users ∧
      lastTraceState.registration.users ≤ 1) :=
  c4_pool_occupancy_bounds P0 1 20 40 S8 lastTraceState
    (by apply of_decide_eq_true; with_unfolding_all rfl)

/-- C5.  Exactly the stage-2 waits are recorded: at every state of a traced
run the collector list equals, entry by entry and in order, the grant-time
minus request-time differences of the registration grants
(`regGrantLog` holds one `(pid, start_wait, grant time)` triple per grant,
appended at the moment the grant resumes the student — line 136), and each
grant's `start_wait` is the virtual time logged when that student requested
the registration resource (line 133-134).  Nothing else — in particular no
stage-1 wait — is ever appended. -/
theorem c5_stage2_wait_recording (P : Params) (counters : ℕ) (horizon : ℚ)
    (fuel : ℕ) (stream : List ℚ) (st : SimState)
    (hmem : st ∈ simTrace P counters horizon fuel (initState stream)) :
    st.wait_times = st.regGrantLog.map (fun g => g.2.2 - g.2.1) ∧
    ∀ g ∈ st.regGrantLog, (g.1, g.2.1) ∈ st.regReqLog ∧ g.2.1 ≤ g.2.2 := by
  have h := inv_trace (inv_initState counters stream) hmem
  exact ⟨h.2.2.2.2.2.2.1, h.2.2.2.2.2.2.2⟩

theorem c5_stage2_wait_recording_witness :
    lastTraceState.wait_times =
      lastTraceState.regGrantLog.map (fun g => g.2.2 - g.2.1) ∧
    ∀ g ∈ lastTraceState.regGrantLog,
      (g.1, g.2.1) ∈ lastTraceState.regReqLog ∧ g.2.1 ≤ g.2.2 :=
  c5_stage2_wait_recording P0 1 20 40 S8 lastTraceState
    (by apply of_decide_eq_true; with_unfolding_all rfl)

/-- C6, counterexample.  The claim says any configuration with a non-positive
mean duration is rejected before scheduling begins, surfacing an
InvalidParameter error with no partial run attempted.  The code performs no
such validation: with `avg_doc_check = 0` the run starts normally and crashes
with ZeroDivisionError (`1 / avg_doc_check`, line 131) only when the first
student samples its document-check time — after 4 events have already
executed, resources were granted and the arrival generator is live. -/
theorem c6_no_upfront_validation :
    (registration_simulation P6 3 20 60 [2, 2000]).errOf = some .zeroDivision ∧
    (registration_simulation P6 3 20 60 [2, 2000]).stepsOf = 4 ∧
    ¬ rejectedUpFront (registration_simulation P6 3 20 60 [2, 2000]) := by
  refine ⟨by with_unfolding_all rfl, by with_unfolding_all rfl, fun hrej => ?_⟩
  have h0 := rejectedUpFront_stepsOf hrej
  have h4 : (registration_simulation P6 3 20 60 [2, 2000]).stepsOf = 4 := by with_unfolding_all rfl
  rw [h0] at h4
  exact absurd h4 (by decide)

/-- C6, amended.  Only the zero-capacity case is rejected up front (SimPy's
`Resource` constructor raises ValueError before anything is scheduled, with
no events executed); a non-positive horizon is also rejected with no events
executed, but only when `env.run` is called — after the arrival generator has
already been scheduled.  Non-positive means are not validated at all and
crash mid-run (see the counterexample). -/
theorem c6_validation_amended (P : Params) (horizon : ℚ) (counters fuel : ℕ)
    (stream : List ℚ) :
    (counters = 0 →
      registration_simulation P counters horizon fuel stream =
        .error .invalidCapacity emptyState ∧
      rejectedUpFront (registration_simulation P counters horizon fuel stream)) ∧
    (counters ≠ 0 → horizon ≤ 0 →
      registration_simulation P counters horizon fuel stream =
        .error .untilInPast (initState stream) ∧
      (registration_simulation P counters horizon fuel stream).stepsOf = 0) := by
  constructor
  · intro hc
    subst hc
    exact ⟨rfl, rfl⟩
  · intro hc hh
    unfold registration_simulation
    rw [if_neg hc, if_pos hh]
    exact ⟨rfl, rfl⟩

theorem c6_validation_amended_witness :
    (registration_simulation P0 0 600 10 [2] =
        .error .invalidCapacity emptyState ∧
      rejectedUpFront (registration_simulation P0 0 600 10 [2])) ∧
    (registration_simulation P0 3 0 10 [2] =
        .error .untilInPast (initState [2]) ∧
      (registration_simulation P0 3 0 10 [2]).stepsOf = 0) :=
  ⟨(c6_validation_amended P0 600 0 10 [2]).1 rfl,
   (c6_validation_amended P0 0 3 10 [2]).2 (by decide) le_rfl⟩

/-- C7.  FIFO fairness: at every state of a traced run, for each pool, the
pids granted so far (in grant order) followed by the pids still waiting (in
queue order) are exactly the pids that requested the pool, in request order.
Hence grants happen strictly in arrival order: a later-arriving waiter is
never granted a unit before an earlier-arriving one. -/
theorem c7_fifo_grant_order (P : Params) (counters : ℕ) (horizon : ℚ)
    (fuel : ℕ) (stream : List ℚ) (st : SimState)
    (hmem : st ∈ simTrace P counters horizon fuel (initState stream)) :
    st.doc_check.grantLog ++ st.doc_check.queue = st.doc_check.enqLog ∧
    st.registration.grantLog ++ st.registration.queue =
      st.registration.enqLog := by
  have h := inv_trace (inv_initState counters stream) hmem
  exact ⟨h.1.2, h.2.1.2⟩

theorem c7_fifo_grant_order_witness :
    lastTraceState.doc_check.grantLog ++ lastTraceState.doc_check.queue =
      lastTraceState.doc_check.enqLog ∧
    lastTraceState.registration.grantLog ++ lastTraceState.registration.queue =
      lastTraceState.registration.enqLog :=
  c7_fifo_grant_order P0 1 20 40 S8 lastTraceState
    (by apply of_decide_eq_true; with_unfolding_all rfl)

/-- C8.  Whenever a run produces a mean (at least one wait recorded), that
mean is the arithmetic mean — sum divided by count — of the collector's
list for the run. -/
theorem c8_mean_wait_arithmetic_mean (P : Params) (counters : ℕ) (horizon : ℚ)
    (fuel : ℕ) (stream : List ℚ) (m : ℚ)
    (h : (registration_simulation P counters horizon fuel stream).meanOf =
      some m) :
    (registration_simulation P counters horizon fuel stream).finalWaits ≠ [] ∧
    m = (registration_simulation P counters horizon fuel stream).finalWaits.sum /
      (registration_simulation P counters horizon fuel stream).finalWaits.length := by
  unfold registration_simulation at h ⊢
  by_cases hc : counters = 0
  · rw [if_pos hc] at h
    simp [SimOut.meanOf] at h
  · rw [if_neg hc] at h ⊢
    by_cases hh : horizon ≤ 0
    · rw [if_pos hh] at h
      simp [SimOut.meanOf] at h
    · rw [if_neg hh] at h ⊢
      cases hrun : runSim P counters horizon fuel (initState stream) with
      | finished s =>
        rw [hrun] at h
        dsimp only at h ⊢
        cases hsm : statisticsMean s.wait_times with
        | error e =>
          rw [hsm] at h
          simp [SimOut.meanOf] at h
        | ok m' =>
          rw [hsm] at h
          dsimp only [SimOut.meanOf, SimOut.finalWaits] at h ⊢
          obtain ⟨hne, hm'⟩ := statisticsMean_ok hsm
          obtain rfl : m' = m := by simpa using h
          exact ⟨hne, hm'⟩
      | failed e s =>
        rw [hrun] at h
        simp [SimOut.meanOf] at h
      | outOfFuel s =>
        rw [hrun] at h
        simp [SimOut.meanOf] at h

theorem c8_mean_wait_arithmetic_mean_witness :
    (registration_simulation P0 1 20 40 S8).finalWaits ≠ [] ∧
    (0 : ℚ) = (registration_simulation P0 1 20 40 S8).finalWaits.sum /
      (registration_simulation P0 1 20 40 S8).finalWaits.length :=
  c8_mean_wait_arithmetic_mean P0 1 20 40 S8 0 (by with_unfolding_all rfl)

/-- C9.  The result of simulating one configuration depends on the
module-level generator state at entry, not only on the configuration
arguments: the same configuration (1 counter, same means, same horizon)
yields mean 0 from one generator state and mean 3 from another; and a run
consumes the shared stream, so a later configuration in the sweep starts at
a different generator state than the one `random.seed(42)` established. -/
theorem c9_mean_depends_on_rng_state :
    (registration_simulation P0 1 20 60 S8).meanOf = some 0 ∧
    (registration_simulation P0 1 20 60 S9B).meanOf = some 3 ∧
    (registration_simulation P0 1 20 60 S9B).streamAfter ≠ S9B ∧
    (0 : ℚ) ≠ 3 := by
  refine ⟨by with_unfolding_all rfl, by with_unfolding_all rfl, by apply of_decide_eq_true; with_unfolding_all rfl, by norm_num⟩

/-- C10.  Every value the collector records is non-negative: the virtual time
at which a registration request is granted is never earlier than the virtual
time at which the request was made (the clock is monotone and every grant
happens at or after its request). -/
theorem c10_recorded_waits_nonneg (P : Params) (counters : ℕ) (horizon : ℚ)
    (fuel : ℕ) (stream : List ℚ) (st : SimState)
    (hmem : st ∈ simTrace P counters horizon fuel (initState stream)) :
    ∀ w ∈ st.wait_times, 0 ≤ w := by
  have h := inv_trace (inv_initState counters stream) hmem
  exact h.2.2.2.2.2.1

theorem c10_recorded_waits_nonneg_witness :
    (0 : ℚ) ∈ lastTraceState.wait_times ∧ (0 : ℚ) ≤ 0 :=
  ⟨by apply of_decide_eq_true; with_unfolding_all rfl,
   c10_recorded_waits_nonneg P0 1 20 40 S8 lastTraceState
     (by apply of_decide_eq_true; with_unfolding_all rfl) 0
     (by apply of_decide_eq_true; with_unfolding_all rfl)⟩

end RegSim
